import Mathlib

/-!
Shallow embedding of the timeline-and-render pipeline of
`video_creation/final_video.py`: the ProgressFfmpeg progress monitor, audio
clip gathering and duration probing, overlay window construction, background
audio mixing and the render invocation logic.  Floating point durations are
modelled as exact rationals; Python runtime errors (IndexError,
ZeroDivisionError) are modelled with `Except`.
-/

deriving instance DecidableEq for Except

namespace FinalVideo

/-- Python runtime errors that the embedded code can raise. -/
inductive PyError where
  | indexError
  | zeroDivisionError
  deriving Repr, DecidableEq

/-- Python values as they occur in the settings table: the configuration keys
read by `final_video.py` hold booleans, strings or integers. -/
inductive PyVal where
  | pyBool (b : Bool)
  | pyStr (s : String)
  | pyInt (n : Int)
  deriving Repr, DecidableEq

/-- Python truthiness, as used by `if storymode:`. -/
def PyVal.truthy : PyVal → Bool
  | .pyBool b => b
  | .pyStr s => !s.isEmpty
  | .pyInt n => n != 0

/-- Python equality `==` between settings values: booleans compare equal to
the integers 0 and 1, and never to strings. -/
def PyVal.eqPy : PyVal → PyVal → Bool
  | .pyBool a, .pyBool b => a == b
  | .pyStr a, .pyStr b => a == b
  | .pyInt a, .pyInt b => a == b
  | .pyBool a, .pyInt b => (if a then (1 : Int) else 0) == b
  | .pyInt a, .pyBool b => a == (if b then (1 : Int) else 0)
  | _, _ => false

/-- Does the first list start with the second one? -/
def listStartsWith : List Char → List Char → Bool
  | _, [] => true
  | [], _ :: _ => false
  | a :: as, b :: bs => a == b && listStartsWith as bs

/-- Substring test on character lists. -/
def containsSubList : List Char → List Char → Bool
  | [], pat => pat.isEmpty
  | a :: as, pat => listStartsWith (a :: as) pat || containsSubList as pat

/-- The Python `in` operator on strings, for example `"out_time_ms" in line`. -/
def containsSub (line pat : String) : Bool :=
  containsSubList line.toList pat.toList

/-- Python `str.split(sep)` with a one-character separator. -/
def splitOnChar (sep : Char) : List Char → List (List Char)
  | [] => [[]]
  | c :: rest =>
    if c == sep then [] :: splitOnChar sep rest
    else
      match splitOnChar sep rest with
      | [] => [[c]]
      | h :: t => (c :: h) :: t

/-- Whitespace characters removed by Python `str.strip`. -/
def pyIsSpace (c : Char) : Bool :=
  c == ' ' || c == '\t' || c == '\n' || c == '\r' || c == '\x0b' || c == '\x0c'

/-- Python `str.strip`. -/
def pyStrip (cs : List Char) : List Char :=
  ((cs.dropWhile pyIsSpace).reverse.dropWhile pyIsSpace).reverse

/-- Python `str.isnumeric` restricted to the ASCII digit strings that ffmpeg
progress lines carry. -/
def pyIsNumeric (cs : List Char) : Bool :=
  !cs.isEmpty && cs.all Char.isDigit

/-- Value of an all-digit string, matching Python `float` on such a string. -/
def digitsToNat (cs : List Char) : ℕ :=
  cs.foldl (fun n c => 10 * n + (c.toNat - 48)) 0

/-- Embeds `ProgressFfmpeg.get_latest_ms_progress`: scan the newly read lines
and, on the FIRST line containing "out_time_ms", split the line on "=", take
field 1 (an IndexError when the line has no "="), strip it, and when it is
numeric return its value divided by 1000000 (microseconds to seconds); a
non-numeric field yields `none`, as does the absence of any matching line. -/
def get_latest_ms_progress : List String → Except PyError (Option ℚ)
  | [] => .ok none
  | line :: lines =>
    if containsSub line "out_time_ms" then
      match (splitOnChar '=' line.toList).get? 1 with
      | none => .error .indexError
      | some raw =>
        let out_time_ms_str := pyStrip raw
        if pyIsNumeric out_time_ms_str then
          .ok (some ((digitsToNat out_time_ms_str : ℚ) / 1000000))
        else .ok none
    else get_latest_ms_progress lines

/-- State of a `ProgressFfmpeg` monitor thread.  `filePos` is the read
position of the handle on the progress channel (in lines), `fileReleased`
records whether the temporary file backing the channel has been closed or
deleted, and `callbacks` lists the fractions passed to
`progress_update_callback`, in order. -/
structure ProgressState where
  stopped : Bool
  filePos : ℕ
  fileReleased : Bool
  callbacks : List ℚ
  deriving Repr, DecidableEq

/-- Embeds `ProgressFfmpeg.__init__`: the stop event is clear, the progress
channel is a fresh `NamedTemporaryFile(mode="w+", delete=False)` (not
released), nothing has been read and no callback has fired. -/
def progressInit : ProgressState :=
  { stopped := false, filePos := 0, fileReleased := false, callbacks := [] }

/-- Embeds `ProgressFfmpeg.stop`: `self.stop_event.set()` and nothing else. -/
def progressStop (s : ProgressState) : ProgressState :=
  { s with stopped := true }

/-- One iteration of the polling loop in `ProgressFfmpeg.run`, given the
current snapshot of the progress channel (the list of lines appended so far).
If the stop event is set, the loop body does not execute.  Otherwise
`readlines` returns the lines after `filePos` and advances the handle to the
end; when a progress value is parsed, it is divided by
`vid_duration_seconds` (a ZeroDivisionError when that is zero) and passed to
the callback. -/
def monitorTick (vid_duration_seconds : ℚ) (snapshot : List String)
    (s : ProgressState) : Except PyError ProgressState :=
  if s.stopped then .ok s
  else
    match get_latest_ms_progress (snapshot.drop s.filePos) with
    | .error e => .error e
    | .ok none => .ok { s with filePos := snapshot.length }
    | .ok (some latest_progress) =>
      if vid_duration_seconds = 0 then .error .zeroDivisionError
      else
        .ok { s with
              filePos := snapshot.length,
              callbacks :=
                s.callbacks ++ [latest_progress / vid_duration_seconds] }

/-- The polling loop of `ProgressFfmpeg.run` over a schedule of channel
snapshots, one per one-second polling tick. -/
def monitorRun (vid_duration_seconds : ℚ) (snaps : List (List String))
    (s : ProgressState) : Except PyError ProgressState :=
  match snaps with
  | [] => .ok s
  | snap :: rest =>
    match monitorTick vid_duration_seconds snap s with
    | .error e => .error e
    | .ok s2 => monitorRun vid_duration_seconds rest s2

/-- The configuration keys of `settings.config` that `final_video.py` reads.
`storymode` is kept as a raw Python value because the source compares it both
by truthiness (`if storymode:`) and against the string literal `"false"`. -/
structure Settings where
  storymode : PyVal
  storymodemethod : Int
  storymodemethod_cap_cut : Bool
  background_audio_volume : ℚ
  enable_extra_audio : Bool
  opacity : ℚ
  deriving Repr, DecidableEq

/-- Path of one narration mp3 in the per-job scratch directory. -/
def mp3Path (reddit_id name : String) : String :=
  s!"assets/temp/{reddit_id}/mp3/{name}"

/-- Embeds `gather_audio_clips`: the ordered list of narration audio inputs,
or the `exit()` taken when `number_of_clips == 0 and storymode == "false"`.
With storymode truthy and a storymodemethod other than 0 or 1 the list stays
empty. -/
def gather_audio_clips (cfg : Settings) (number_of_clips : ℕ)
    (reddit_id : String) : Except String (List String) :=
  if number_of_clips == 0 && cfg.storymode.eqPy (.pyStr "false") then
    .error "No audio clips to gather. Please use a different TTS or post."
  else if cfg.storymode.truthy then
    if cfg.storymodemethod = 0 then
      .ok [mp3Path reddit_id "title.mp3", mp3Path reddit_id "postaudio.mp3"]
    else if cfg.storymodemethod = 1 then
      .ok (mp3Path reddit_id "title.mp3" ::
        (List.range (number_of_clips + 1)).map
          (fun i => mp3Path reddit_id s!"postaudio-{i}.mp3"))
    else .ok []
  else
    .ok (mp3Path reddit_id "title.mp3" ::
      (List.range number_of_clips).map (fun i => mp3Path reddit_id s!"{i}.mp3"))

/-- Embeds `get_audio_clips_durations`: probe the duration of every clip the
mode enumerates, title first.  `probe` stands for
`float(ffmpeg.probe(path)["format"]["duration"])`. -/
def get_audio_clips_durations (cfg : Settings) (number_of_clips : ℕ)
    (reddit_id : String) (probe : String → ℚ) : List ℚ :=
  if cfg.storymode.truthy then
    if cfg.storymodemethod = 0 then
      [probe (mp3Path reddit_id "title.mp3"),
       probe (mp3Path reddit_id "postaudio.mp3")]
    else if cfg.storymodemethod = 1 then
      probe (mp3Path reddit_id "title.mp3") ::
        (List.range (number_of_clips + 1)).map
          (fun i => probe (mp3Path reddit_id s!"postaudio-{i}.mp3"))
    else []
  else
    probe (mp3Path reddit_id "title.mp3") ::
      (List.range number_of_clips).map
        (fun i => probe (mp3Path reddit_id s!"{i}.mp3"))

/-- The image files that `final_video.py` declares as overlay inputs, by the
path template each comes from under `assets/temp/<id>/png/`. -/
inductive ImgRef where
  | title
  | storyContent
  | img (i : ℕ)
  | trs (i : ℕ)
  | comment (i : ℕ)
  deriving Repr, DecidableEq, Inhabited

/-- The scratch-directory path each `ImgRef` stands for. -/
def ImgRef.path (reddit_id : String) : ImgRef → String
  | .title => s!"assets/temp/{reddit_id}/png/title.png"
  | .storyContent => s!"assets/temp/{reddit_id}/png/story_content.png"
  | .img i => s!"assets/temp/{reddit_id}/png/img{i}.png"
  | .trs i => s!"assets/temp/{reddit_id}/png/trs{i}.png"
  | .comment i => s!"assets/temp/{reddit_id}/png/comment_{i}.png"

/-- One overlay emitted by `overlay_images_on_background`: the image is
composited enabled `between(t, start, fin)`; in the flat-comments mode it is
first passed through `colorchannelmixer` with alpha `opacity`. -/
structure OverlayWindow where
  start : ℚ
  fin : ℚ
  image : ImgRef
  opacity : Option ℚ
  deriving Repr, DecidableEq, Inhabited

/-- Python `list.insert`, which clamps an out-of-range index to an append. -/
def pyListInsert {α : Type} : List α → ℕ → α → List α
  | l, 0, x => x :: l
  | [], _ + 1, x => [x]
  | a :: l, n + 1, x => a :: pyListInsert l n x

/-- The overlay loop shared by every branch of
`overlay_images_on_background`: starting at index `i` and cursor `t`, emit
`k` windows, each spanning `audio_clips_durations[i]` and compositing
`image_clips[i]`, then advance the cursor.  The branches only differ in the
image list and the iteration count. -/
def overlayGo (image_clips : List ImgRef) (opac : Option ℚ)
    (audio_clips_durations : List ℚ) : ℕ → ℕ → ℚ → List OverlayWindow
  | _, 0, _ => []
  | i, k + 1, current_time =>
    let d := audio_clips_durations.getD i 0
    { start := current_time, fin := current_time + d,
      image := image_clips.getD i default, opacity := opac } ::
      overlayGo image_clips opac audio_clips_durations (i + 1) k
        (current_time + d)

/-- What `overlay_images_on_background` builds: the final list of declared
image inputs and the overlay windows composited onto the background clip. -/
structure OverlayResult where
  image_clips : List ImgRef
  windows : List OverlayWindow
  deriving Repr, DecidableEq

/-- Embeds `overlay_images_on_background`.  The incoming `image_clips` list
is `[ImgRef.title]` in `make_final_video`.  Story mode method 0 inserts the
story content image at index 1 and runs the loop twice; method 1 appends
`img<i>` (or, with `storymodemethod_cap_cut`, a transparent `trs<i>`) for
`i` in `range(number_of_clips + 1)` and overlays `image_clips[i]` each
iteration; the flat-comments branch appends `comment_<i>` likewise and
applies the configured opacity.  Appends are hoisted before the loop, which
preserves every index the loop reads. -/
def overlay_images_on_background (cfg : Settings) (image_clips : List ImgRef)
    (audio_clips_durations : List ℚ) (number_of_clips : ℕ) : OverlayResult :=
  if cfg.storymode.truthy then
    if cfg.storymodemethod = 0 then
      let clips := pyListInsert image_clips 1 ImgRef.storyContent
      { image_clips := clips,
        windows := overlayGo clips none audio_clips_durations 0 2 0 }
    else if cfg.storymodemethod = 1 then
      let clips := image_clips ++
        (List.range (number_of_clips + 1)).map
          (fun i => if cfg.storymodemethod_cap_cut then ImgRef.trs i
                    else ImgRef.img i)
      { image_clips := clips,
        windows :=
          overlayGo clips none audio_clips_durations 0 (number_of_clips + 1) 0 }
    else { image_clips := image_clips, windows := [] }
  else
    let clips := image_clips ++
      (List.range (number_of_clips + 1)).map ImgRef.comment
    { image_clips := clips,
      windows := overlayGo clips (some cfg.opacity) audio_clips_durations 0
        (number_of_clips + 1) 0 }

/-- The ffmpeg audio graph nodes that `final_video.py` builds. -/
inductive AudioNode where
  | input (path : String)
  | volume (src : AudioNode) (vol : ℚ)
  | amix (a b : AudioNode) (duration : String)
  deriving Repr, DecidableEq

/-- Does the audio graph contain an `amix` node? -/
def AudioNode.hasAmix : AudioNode → Bool
  | .input _ => false
  | .volume src _ => src.hasAmix
  | .amix _ _ _ => true

/-- Embeds `merge_background_audio`: with `background_audio_volume == 0` the
narration audio is returned unchanged; otherwise `background.mp3` is
volume-scaled and mixed in with `amix` under the `duration="longest"`
policy. -/
def merge_background_audio (cfg : Settings) (audio : AudioNode)
    (reddit_id : String) : AudioNode :=
  if cfg.background_audio_volume = 0 then audio
  else
    .amix audio
      (.volume (.input s!"assets/temp/{reddit_id}/background.mp3")
        cfg.background_audio_volume)
      "longest"

/-- Embeds the `allow_only_tts_folder` flag computed in `initial_setup`. -/
def allow_only_tts_folder (cfg : Settings) : Bool :=
  cfg.enable_extra_audio && decide (cfg.background_audio_volume ≠ 0)

/-- Number of `render_video` invocations `make_final_video` performs: the
main render, plus the Only TTS render when `allow_only_tts_folder` holds. -/
def render_invocations (cfg : Settings) : ℕ :=
  if allow_only_tts_folder cfg then 2 else 1

/-- Outcome of one `render_video` call as a function of the external encoder
result: the encoder is invoked exactly once; a nonzero exit raises
`ffmpeg.Error`, whose captured stderr is printed before `exit(1)` aborts the
process, so the render never completes and is never retried. -/
structure RenderOutcome where
  encoderCalls : ℕ
  completed : Bool
  printedDiagnostics : Option String
  exitedProcess : Bool
  deriving Repr, DecidableEq

/-- Embeds `render_video`: run the encoder once on the composed output; on
`ffmpeg.Error` print the captured stderr and `exit(1)`. -/
def render_video (encoderResult : Except String Unit) : RenderOutcome :=
  match encoderResult with
  | .ok _ => { encoderCalls := 1, completed := true,
               printedDiagnostics := none, exitedProcess := false }
  | .error stderr => { encoderCalls := 1, completed := false,
                       printedDiagnostics := some stderr, exitedProcess := true }

/-- The output path `make_final_video` reports: it returns `video_path` only
when the main render ran to completion; `exit(1)` inside `render_video`
otherwise ends the process before any path is returned. -/
def reported_video_path (encoderResult : Except String Unit)
    (video_path : String) : Option String :=
  if (render_video encoderResult).completed then some video_path else none

/-- The progress value one channel line carries, if any: the seconds value of
an `out_time_ms` line whose field 1 is numeric. -/
def lineOutTimeVal (line : String) : Option ℚ :=
  if containsSub line "out_time_ms" then
    match (splitOnChar '=' line.toList).get? 1 with
    | none => none
    | some raw =>
      if pyIsNumeric (pyStrip raw) then
        some ((digitsToNat (pyStrip raw) : ℚ) / 1000000)
      else none
  else none

/-- All parseable `out_time_ms` values of a channel, in append order. -/
def msValues (lines : List String) : List ℚ :=
  lines.filterMap lineOutTimeVal

/-- Modelled from the spec: the spec says each poll "extracts the most recent
`elapsedMicroseconds` field" among the newly appended lines, so this takes
the value of the LAST parseable `out_time_ms` line. -/
def latest_ms_progress_spec (lines : List String) : Option ℚ :=
  (msValues lines).getLast?

/-- Unfolding of `get_latest_ms_progress` on one channel line. -/
theorem get_latest_cons (l : String) (ls : List String) :
    get_latest_ms_progress (l :: ls) =
      if containsSub l "out_time_ms" then
        match (splitOnChar '=' l.toList).get? 1 with
        | none => .error .indexError
        | some raw =>
          if pyIsNumeric (pyStrip raw) then
            .ok (some ((digitsToNat (pyStrip raw) : ℚ) / 1000000))
          else .ok none
      else get_latest_ms_progress ls := rfl

/-- The scan of `get_latest_ms_progress` stops at the first line containing
"out_time_ms": its result is determined by `List.find?` over that test. -/
theorem get_latest_eq_find (lines : List String) :
    get_latest_ms_progress lines =
      match lines.find? (fun l => containsSub l "out_time_ms") with
      | none => .ok none
      | some line =>
        match (splitOnChar '=' line.toList).get? 1 with
        | none => .error .indexError
        | some raw =>
          if pyIsNumeric (pyStrip raw) then
            .ok (some ((digitsToNat (pyStrip raw) : ℚ) / 1000000))
          else .ok none := by
  induction lines with
  | nil => rfl
  | cons l ls ih =>
    by_cases h : containsSub l "out_time_ms"
    · rw [get_latest_cons, if_pos h]
      simp only [List.find?, h]
    · rw [get_latest_cons, if_neg (by simp [h]), ih]
      simp only [List.find?, h]

/-- A successfully parsed progress value is one of the channel values. -/
theorem get_latest_some_mem {lines : List String} {v : ℚ}
    (h : get_latest_ms_progress lines = .ok (some v)) : v ∈ msValues lines := by
  rw [get_latest_eq_find] at h
  split at h
  · simp at h
  · rename_i line heq
    split at h
    · simp at h
    · rename_i raw hraw
      by_cases hn : pyIsNumeric (pyStrip raw)
      · rw [if_pos hn] at h
        have hv : v = (digitsToNat (pyStrip raw) : ℚ) / 1000000 := by
          simpa using h.symm
        have hpl : containsSub line "out_time_ms" = true := by
          simpa using List.find?_some heq
        have hml : line ∈ lines := List.mem_of_find?_eq_some heq
        exact List.mem_filterMap.mpr
          ⟨line, hml, by rw [lineOutTimeVal, if_pos hpl, hraw]; simp [hn, hv]⟩
      · rw [if_neg hn] at h
        simp at h

/-- A channel with no `out_time_ms` line never parses a progress value. -/
theorem get_latest_no_match {lines : List String}
    (h : ∀ line ∈ lines, containsSub line "out_time_ms" = false) :
    get_latest_ms_progress lines = .ok none := by
  induction lines with
  | nil => rfl
  | cons l ls ih =>
    have hl : containsSub l "out_time_ms" = false := h l (List.mem_cons_self _ _)
    rw [get_latest_cons, if_neg (by simp [hl])]
    exact ih (fun line hm => h line (List.mem_cons_of_mem _ hm))

/-- Unfolding of one polling tick when the monitor is not stopped. -/
theorem monitorTick_live (d : ℚ) (snapshot : List String) (s : ProgressState)
    (hlive : s.stopped = false) :
    monitorTick d snapshot s =
      match get_latest_ms_progress (snapshot.drop s.filePos) with
      | .error e => .error e
      | .ok none => .ok { s with filePos := snapshot.length }
      | .ok (some latest_progress) =>
        if d = 0 then .error .zeroDivisionError
        else
          .ok { s with
                filePos := snapshot.length,
                callbacks := s.callbacks ++ [latest_progress / d] } := by
  rw [monitorTick, if_neg (by simp [hlive])]

/-- C3 (counterexample): on a tick whose newly read lines carry two
`out_time_ms` fields (1000000 then 2000000 microseconds), the monitor
invokes the callback with the FIRST value (1 second / duration 1 = 1), not
the most recent one (2 seconds), contradicting the claim that the most
recent value among the newly appended lines is extracted. -/
theorem C3_counterexample :
    monitorTick 1 ["out_time_ms=1000000", "out_time_ms=2000000"] progressInit =
      .ok { stopped := false, filePos := 2, fileReleased := false,
            callbacks := [(1 : ℚ)] } ∧
    latest_ms_progress_spec ["out_time_ms=1000000", "out_time_ms=2000000"] =
      some (2 : ℚ) ∧
    (1 : ℚ) ≠ 2 := by
  refine ⟨?_, ?_, by norm_num⟩
  · have h : monitorTick 1 ["out_time_ms=1000000", "out_time_ms=2000000"] progressInit =
        .ok { stopped := false, filePos := 2, fileReleased := false,
              callbacks := [(1000000 : ℚ) / 1000000 / 1] } := rfl
    rw [h]
    norm_num
  · have h : latest_ms_progress_spec ["out_time_ms=1000000", "out_time_ms=2000000"] =
        some ((2000000 : ℚ) / 1000000) := rfl
    rw [h]
    norm_num

/-- C3 (amended): on every polling tick the monitor reads all newly appended
lines, takes the FIRST line among them containing `out_time_ms` (later lines
of the same batch are ignored), converts its microsecond value to seconds,
divides by the expected total duration and passes that unclamped fraction to
the callback; when no newly read line contains `out_time_ms`, or the first
such line has a non-numeric value, no callback is made for that tick. -/
theorem C3_amended (d : ℚ) (snapshot : List String) (s : ProgressState)
    (hlive : s.stopped = false) (hd : d ≠ 0) :
    ((snapshot.drop s.filePos).find? (fun l => containsSub l "out_time_ms") = none →
      monitorTick d snapshot s = .ok { s with filePos := snapshot.length }) ∧
    (∀ line raw,
      (snapshot.drop s.filePos).find? (fun l => containsSub l "out_time_ms") = some line →
      (splitOnChar '=' line.toList).get? 1 = some raw →
      ((pyIsNumeric (pyStrip raw) = true →
        monitorTick d snapshot s =
          .ok { s with
                filePos := snapshot.length,
                callbacks := s.callbacks ++
                  [(digitsToNat (pyStrip raw) : ℚ) / 1000000 / d] }) ∧
       (pyIsNumeric (pyStrip raw) = false →
        monitorTick d snapshot s = .ok { s with filePos := snapshot.length }))) := by
  rw [monitorTick_live d snapshot s hlive, get_latest_eq_find]
  constructor
  · intro hfind
    simp [hfind]
  · intro line raw hfind hsplit
    rw [List.get?_eq_getElem?] at hsplit
    simp only [String.toList] at hsplit
    constructor
    · intro hn
      simp [hfind, hsplit, hn, hd]
    · intro hn
      simp [hfind, hsplit, hn]

/-- C3 witness: a concrete tick through the amended theorem: one line of
3000000 microseconds at duration 2 yields callback fraction 3/2. -/
theorem C3_amended_witness :
    monitorTick 2 ["out_time_ms=3000000"] progressInit =
      .ok { stopped := false, filePos := 1, fileReleased := false,
            callbacks := [(3 : ℚ) / 2] } := by
  have h := ((C3_amended 2 ["out_time_ms=3000000"] progressInit rfl
      (by norm_num)).2 "out_time_ms=3000000" "3000000".toList rfl rfl).1 rfl
  rw [h]
  norm_num [progressInit,
    show digitsToNat (pyStrip ['3', '0', '0', '0', '0', '0', '0']) = 3000000 from by decide]

/-- C7 (counterexample): the claim says stopping releases the temporary file
backing the progress channel, but `ProgressFfmpeg` opens it with
`delete=False` and `stop` only sets the stop event: after a stop from the
freshly initialised state the file is still not released. -/
theorem C7_counterexample :
    (progressStop progressInit).fileReleased = false := rfl

/-- C7 (amended): `stop` is idempotent and after a stop the polling loop
performs no further iteration (any schedule of ticks leaves the state
untouched and makes no callback), but the temporary file backing the
progress channel is NOT released: it is created with `delete=False` and
neither `stop` nor any other monitor method closes or deletes it. -/
theorem C7_amended (s : ProgressState) (d : ℚ) (snaps : List (List String)) :
    progressStop (progressStop s) = progressStop s ∧
    monitorRun d snaps (progressStop s) = .ok (progressStop s) ∧
    (progressStop s).fileReleased = s.fileReleased ∧
    progressInit.fileReleased = false := by
  refine ⟨rfl, ?_, rfl, rfl⟩
  induction snaps with
  | nil => rfl
  | cons snap rest ih =>
    have ht : monitorTick d snap (progressStop s) = .ok (progressStop s) := rfl
    simp only [monitorRun, ht]
    exact ih

/-- A tick that parses a progress value reduces to the division guard. -/
theorem monitorTick_parsed (d : ℚ) (snapshot : List String) (s : ProgressState)
    (v : ℚ) (hlive : s.stopped = false)
    (hparse : get_latest_ms_progress (snapshot.drop s.filePos) = .ok (some v)) :
    monitorTick d snapshot s =
      if d = 0 then .error .zeroDivisionError
      else .ok { s with
                 filePos := snapshot.length,
                 callbacks := s.callbacks ++ [v / d] } := by
  rw [monitorTick_live d snapshot s hlive, hparse]

/-- C9: the fraction computation of `ProgressFfmpeg.run` divides the parsed
seconds by `vid_duration_seconds` with no guard: on a tick that parses a
progress value, a duration of zero raises ZeroDivisionError, and any
non-zero duration completes the tick and invokes the callback. -/
theorem C9_division_guard (d : ℚ) (snapshot : List String) (s : ProgressState)
    (v : ℚ) (hlive : s.stopped = false)
    (hparse : get_latest_ms_progress (snapshot.drop s.filePos) = .ok (some v)) :
    (d = 0 → monitorTick d snapshot s = .error .zeroDivisionError) ∧
    (d ≠ 0 → monitorTick d snapshot s =
      .ok { s with
            filePos := snapshot.length,
            callbacks := s.callbacks ++ [v / d] }) := by
  constructor
  · intro h
    rw [monitorTick_parsed d snapshot s v hlive hparse, if_pos h]
  · intro h
    rw [monitorTick_parsed d snapshot s v hlive hparse, if_neg h]

/-- C9 witness: with a parseable channel line, duration zero raises
ZeroDivisionError and duration 2 calls back with fraction 1/2. -/
theorem C9_division_guard_witness :
    monitorTick 0 ["out_time_ms=1000000"] progressInit = .error .zeroDivisionError ∧
    monitorTick 2 ["out_time_ms=1000000"] progressInit =
      .ok { stopped := false, filePos := 1, fileReleased := false,
            callbacks := [(1 : ℚ) / 2] } := by
  constructor
  · exact (C9_division_guard 0 ["out_time_ms=1000000"] progressInit
      ((1000000 : ℚ) / 1000000) rfl rfl).1 rfl
  · have h := (C9_division_guard 2 ["out_time_ms=1000000"] progressInit
      ((1000000 : ℚ) / 1000000) rfl rfl).2 (by norm_num)
    rw [h]
    norm_num [progressInit]

/-- `msValues` distributes over append. -/
theorem msValues_append (a b : List String) :
    msValues (a ++ b) = msValues a ++ msValues b := by
  simp [msValues, List.filterMap_append]

/-- Splitting the unread part of the channel at the next snapshot end. -/
theorem drop_eq_chunk_append (L : List String) (pos n : ℕ)
    (hpos : pos ≤ n) (hn : n ≤ L.length) :
    L.drop pos = (L.take n).drop pos ++ L.drop n := by
  conv_lhs => rw [← List.take_append_drop n L]
  rw [List.drop_append_eq_append_drop, List.length_take, Nat.min_eq_left hn,
    Nat.sub_eq_zero_of_le hpos, List.drop_zero]

/-- Sortedness of the values in the unread part of the channel. -/
theorem msValues_drop_pairwise {L : List String}
    (h : (msValues L).Pairwise (· ≤ ·)) (pos : ℕ) :
    (msValues (L.drop pos)).Pairwise (· ≤ ·) := by
  have hsplit : msValues L = msValues (L.take pos) ++ msValues (L.drop pos) := by
    rw [← msValues_append, List.take_append_drop]
  rw [hsplit] at h
  exact (List.pairwise_append.mp h).2.1

/-- Invariant of the polling loop on a sorted channel: the callback list
stays sorted and stays below every still-unread channel value. -/
theorem monitorRun_sorted_aux (L : List String) (d : ℚ) (hd : 0 < d)
    (hL : (msValues L).Pairwise (· ≤ ·)) :
    ∀ (ns : List ℕ) (s : ProgressState),
      ns.Pairwise (· ≤ ·) → (∀ n ∈ ns, n ≤ L.length) →
      (∀ n ∈ ns, s.filePos ≤ n) →
      s.callbacks.Pairwise (· ≤ ·) →
      (∀ c ∈ s.callbacks, ∀ v ∈ msValues (L.drop s.filePos), c ≤ v / d) →
      ∀ s2, monitorRun d (ns.map fun n => L.take n) s = .ok s2 →
        s2.callbacks.Pairwise (· ≤ ·) := by
  intro ns
  induction ns with
  | nil =>
    intro s _ _ _ hsc _ s2 hrun
    simp only [List.map_nil, monitorRun, Except.ok.injEq] at hrun
    exact hrun ▸ hsc
  | cons n rest ih =>
    intro s hns hlen hpos hsc hbelow s2 hrun
    simp only [List.map_cons, monitorRun] at hrun
    have hn : n ≤ L.length := hlen n (List.mem_cons_self _ _)
    have hposn : s.filePos ≤ n := hpos n (List.mem_cons_self _ _)
    have hlen_take : (L.take n).length = n := by
      rw [List.length_take]
      exact Nat.min_eq_left hn
    by_cases hstop : s.stopped
    · have ht : monitorTick d (L.take n) s = .ok s := by
        rw [monitorTick, if_pos hstop]
      simp only [ht] at hrun
      exact ih s hns.of_cons (fun m hm => hlen m (List.mem_cons_of_mem _ hm))
        (fun m hm => hpos m (List.mem_cons_of_mem _ hm)) hsc hbelow s2 hrun
    · have hlive : s.stopped = false := by
        revert hstop
        cases s.stopped <;> simp
      have hsplit := drop_eq_chunk_append L s.filePos n hposn hn
      cases hres : get_latest_ms_progress ((L.take n).drop s.filePos) with
      | error e =>
        have ht : monitorTick d (L.take n) s = .error e := by
          rw [monitorTick_live _ _ _ hlive, hres]
        simp [ht] at hrun
      | ok opt =>
        cases opt with
        | none =>
          have ht : monitorTick d (L.take n) s =
              .ok { s with filePos := n } := by
            rw [monitorTick_live _ _ _ hlive, hres, hlen_take]
          simp only [ht] at hrun
          refine ih { s with filePos := n } hns.of_cons
            (fun m hm => hlen m (List.mem_cons_of_mem _ hm))
            (fun m hm => (List.pairwise_cons.mp hns).1 m hm) hsc ?_ s2 hrun
          intro c hc v hv
          exact hbelow c hc v (by
            rw [hsplit, msValues_append]
            exact List.mem_append_right _ hv)
        | some v0 =>
          have hd0 : d ≠ 0 := ne_of_gt hd
          have ht : monitorTick d (L.take n) s =
              .ok { s with
                    filePos := n,
                    callbacks := s.callbacks ++ [v0 / d] } := by
            rw [monitorTick_parsed d (L.take n) s v0 hlive hres, if_neg hd0,
              hlen_take]
          simp only [ht] at hrun
          have hv0chunk : v0 ∈ msValues ((L.take n).drop s.filePos) :=
            get_latest_some_mem hres
          have hv0mem : v0 ∈ msValues (L.drop s.filePos) := by
            rw [hsplit, msValues_append]
            exact List.mem_append_left _ hv0chunk
          have hposPair := msValues_drop_pairwise hL s.filePos
          rw [hsplit, msValues_append] at hposPair
          have hcross : ∀ v ∈ msValues (L.drop n), v0 ≤ v :=
            fun v hv => (List.pairwise_append.mp hposPair).2.2 v0 hv0chunk v hv
          have hsc2 : (s.callbacks ++ [v0 / d]).Pairwise (· ≤ ·) := by
            rw [List.pairwise_append]
            refine ⟨hsc, List.pairwise_singleton _ _, ?_⟩
            intro a ha b hb
            rw [List.mem_singleton] at hb
            subst hb
            exact hbelow a ha v0 hv0mem
          have hbelow2 : ∀ c ∈ s.callbacks ++ [v0 / d],
              ∀ v ∈ msValues (L.drop n), c ≤ v / d := by
            intro c hc v hv
            rcases List.mem_append.mp hc with hc | hc
            · exact hbelow c hc v (by
                rw [hsplit, msValues_append]
                exact List.mem_append_right _ hv)
            · rw [List.mem_singleton] at hc
              subst hc
              have hle := hcross v hv
              gcongr
          exact ih { s with filePos := n, callbacks := s.callbacks ++ [v0 / d] }
            hns.of_cons (fun m hm => hlen m (List.mem_cons_of_mem _ hm))
            (fun m hm => (List.pairwise_cons.mp hns).1 m hm) hsc2 hbelow2 s2 hrun

/-- A run over a channel none of whose lines mention `out_time_ms` succeeds
and never invokes the callback. -/
theorem monitorRun_no_match (d : ℚ) :
    ∀ (snaps : List (List String)) (s : ProgressState),
      (∀ snap ∈ snaps, ∀ line ∈ snap, containsSub line "out_time_ms" = false) →
      ∃ s2, monitorRun d snaps s = .ok s2 ∧ s2.callbacks = s.callbacks := by
  intro snaps
  induction snaps with
  | nil => exact fun s _ => ⟨s, rfl, rfl⟩
  | cons snap rest ih =>
    intro s hno
    by_cases hstop : s.stopped
    · have ht : monitorTick d snap s = .ok s := by
        rw [monitorTick, if_pos hstop]
      obtain ⟨s2, hrun, hcb⟩ := ih s (fun sn hsn => hno sn (List.mem_cons_of_mem _ hsn))
      exact ⟨s2, by simp only [monitorRun, ht]; exact hrun, hcb⟩
    · have hlive : s.stopped = false := by
        revert hstop
        cases s.stopped <;> simp
      have hparse : get_latest_ms_progress (snap.drop s.filePos) = .ok none :=
        get_latest_no_match (fun line hl =>
          hno snap (List.mem_cons_self _ _) line (List.mem_of_mem_drop hl))
      have ht : monitorTick d snap s = .ok { s with filePos := snap.length } := by
        rw [monitorTick_live _ _ _ hlive, hparse]
      obtain ⟨s2, hrun, hcb⟩ := ih { s with filePos := snap.length }
        (fun sn hsn => hno sn (List.mem_cons_of_mem _ hsn))
      exact ⟨s2, by simp only [monitorRun, ht]; exact hrun, hcb⟩

/-- C8: over any append-only schedule of snapshots of a progress channel
whose parseable `out_time_ms` values are monotonically increasing, a monitor
with positive expected duration delivers a monotonically non-decreasing
sequence of callback fractions; and over a channel with no `out_time_ms`
field at all, the run completes with zero callbacks. -/
theorem C8_monotone_callbacks (L : List String) (ns : List ℕ) (d : ℚ) :
    (0 < d → (msValues L).Pairwise (· < ·) →
      ns.Pairwise (· ≤ ·) → (∀ n ∈ ns, n ≤ L.length) →
      ∀ s2, monitorRun d (ns.map fun n => L.take n) progressInit = .ok s2 →
        s2.callbacks.Pairwise (· ≤ ·)) ∧
    ((∀ line ∈ L, containsSub line "out_time_ms" = false) →
      ∃ s2, monitorRun d (ns.map fun n => L.take n) progressInit = .ok s2 ∧
        s2.callbacks = []) := by
  constructor
  · intro hd hmono hns hlen s2 hrun
    exact monitorRun_sorted_aux L d hd (hmono.imp le_of_lt) ns progressInit hns
      hlen (fun n _ => Nat.zero_le n) List.Pairwise.nil (by simp [progressInit])
      s2 hrun
  · intro hnone
    obtain ⟨s2, hrun, hcb⟩ := monitorRun_no_match d (ns.map fun n => L.take n)
      progressInit (by
        intro snap hsnap line hline
        obtain ⟨n, _, rfl⟩ := List.mem_map.mp hsnap
        exact hnone line (List.take_subset n L hline))
    exact ⟨s2, hrun, hcb⟩

/-- C8 witness: a channel with values 1000000 then 2000000 microseconds read
over two ticks at duration 2 yields the non-decreasing fractions 1/2 then 1;
a channel with no `out_time_ms` line yields no callback. -/
theorem C8_monotone_callbacks_witness :
    (∃ s2, monitorRun 2 ([1, 2].map fun n =>
        (["out_time_ms=1000000", "out_time_ms=2000000"].take n)) progressInit =
          .ok s2 ∧ s2.callbacks.Pairwise (· ≤ ·)) ∧
    (∃ s2, monitorRun 2 ([1].map fun n => (["frame=1"].take n)) progressInit =
        .ok s2 ∧ s2.callbacks = []) := by
  constructor
  · refine ⟨⟨false, 2, false,
      [(1000000 : ℚ) / 1000000 / 2, (2000000 : ℚ) / 1000000 / 2]⟩, rfl, ?_⟩
    refine (C8_monotone_callbacks ["out_time_ms=1000000", "out_time_ms=2000000"]
      [1, 2] 2).1 (by norm_num) ?_ (by decide) (by decide) _ rfl
    have hms : msValues ["out_time_ms=1000000", "out_time_ms=2000000"] =
        [(1000000 : ℚ) / 1000000, (2000000 : ℚ) / 1000000] := rfl
    rw [hms]
    norm_num [List.pairwise_cons]
  · exact (C8_monotone_callbacks ["frame=1"] [1] 2).2 (by decide)

/-- Sum of `audio_clips_durations[i..i+k)`, the total time the overlay loop
advances the cursor over `k` iterations starting at index `i`. -/
def sumFrom (ds : List ℚ) : ℕ → ℕ → ℚ
  | _, 0 => 0
  | i, k + 1 => ds.getD i 0 + sumFrom ds (i + 1) k

/-- The contiguity property of the claim, relative to a starting cursor: the
first window starts at `t` and every window ends where the next starts. -/
def contiguousFromB : ℚ → List OverlayWindow → Bool
  | _, [] => true
  | t, w :: rest => w.start == t && contiguousFromB w.fin rest

/-- End of the last window, with `t` for an empty list. -/
def lastEndFrom : ℚ → List OverlayWindow → ℚ
  | t, [] => t
  | _, w :: rest => lastEndFrom w.fin rest

/-- The floating point tolerance the claim allows. -/
def withinTol (a b : ℚ) : Prop :=
  |a - b| ≤ 1 / 1000000

theorem getD_eq_headD_drop (l : List ℚ) : ∀ i, l.getD i 0 = (l.drop i).headD 0 := by
  induction l with
  | nil => intro i; simp
  | cons a l ih =>
    intro i
    cases i with
    | zero => simp
    | succ n => simp [ih n]

theorem sumFrom_eq_take_drop (ds : List ℚ) :
    ∀ k i, sumFrom ds i k = ((ds.drop i).take k).sum := by
  intro k
  induction k with
  | zero => intro i; simp [sumFrom]
  | succ k ih =>
    intro i
    have hdrop : ds.drop (i + 1) = (ds.drop i).drop 1 := by
      rw [List.drop_drop, Nat.add_comm]
    rw [sumFrom, ih, getD_eq_headD_drop, hdrop]
    cases h : ds.drop i with
    | nil => simp
    | cons x xs => simp

/-- The cursor total over the first `k` windows is the sum of the first `k`
probed durations. -/
theorem sumFrom_zero_eq (ds : List ℚ) (k : ℕ) :
    sumFrom ds 0 k = (ds.take k).sum := by
  simpa using sumFrom_eq_take_drop ds k 0

theorem overlayGo_length (clips : List ImgRef) (o : Option ℚ) (ds : List ℚ) :
    ∀ k i t, (overlayGo clips o ds i k t).length = k := by
  intro k
  induction k with
  | zero => intro i t; rfl
  | succ k ih => intro i t; simp [overlayGo, ih]

theorem overlayGo_contiguous (clips : List ImgRef) (o : Option ℚ) (ds : List ℚ) :
    ∀ k i t, contiguousFromB t (overlayGo clips o ds i k t) = true := by
  intro k
  induction k with
  | zero => intro i t; rfl
  | succ k ih =>
    intro i t
    simp [overlayGo, contiguousFromB, ih]

theorem overlayGo_lastEnd (clips : List ImgRef) (o : Option ℚ) (ds : List ℚ) :
    ∀ k i t, lastEndFrom t (overlayGo clips o ds i k t) = t + sumFrom ds i k := by
  intro k
  induction k with
  | zero => intro i t; simp [overlayGo, lastEndFrom, sumFrom]
  | succ k ih =>
    intro i t
    simp [overlayGo, lastEndFrom, sumFrom, ih, add_assoc]

theorem overlayGo_image_getD (clips : List ImgRef) (o : Option ℚ) (ds : List ℚ) :
    ∀ k j i t, j < k →
      ((overlayGo clips o ds i k t).getD j default).image =
        clips.getD (i + j) default := by
  intro k
  induction k with
  | zero => intro j i t hj; omega
  | succ k ih =>
    intro j i t hj
    cases j with
    | zero => simp [overlayGo]
    | succ j =>
      have hj2 : j < k := by omega
      have := ih j (i + 1) (t + ds.getD i 0) hj2
      simpa [overlayGo, Nat.add_assoc, Nat.add_comm 1 j] using this

theorem overlayGo_image_mem (clips : List ImgRef) (o : Option ℚ) (ds : List ℚ) :
    ∀ k i t w, w ∈ overlayGo clips o ds i k t →
      ∃ j, j < k ∧ w.image = clips.getD (i + j) default := by
  intro k
  induction k with
  | zero => intro i t w hw; simp [overlayGo] at hw
  | succ k ih =>
    intro i t w hw
    rw [overlayGo] at hw
    rcases List.mem_cons.mp hw with hw | hw
    · exact ⟨0, by omega, by simp [hw]⟩
    · obtain ⟨j, hj, him⟩ := ih (i + 1) (t + ds.getD i 0) w hw
      exact ⟨j + 1, by omega, by simpa [Nat.add_assoc, Nat.add_comm 1 j] using him⟩

/-- A settings value that is falsy under `if storymode:` is never Python
equal to the string "false" (so the `exit()` guard of `gather_audio_clips`
cannot fire in the flat-comments mode). -/
theorem eqPy_str_false_of_falsy (v : PyVal) (h : v.truthy = false) :
    v.eqPy (.pyStr "false") = false := by
  cases v with
  | pyBool b => rfl
  | pyInt n => rfl
  | pyStr s =>
    have hs : s = "" := (String.isEmpty_iff s).mp (by simpa [PyVal.truthy] using h)
    subst hs
    rfl

/-- A flat-comments configuration with one comment, zero background audio
volume and full opacity. -/
def cfgFlat0 : Settings :=
  ⟨.pyBool false, 0, false, 0, false, 1⟩

/-- A story mode configuration with `storymodemethod = 1`. -/
def cfgStory1 : Settings :=
  ⟨.pyBool true, 1, false, 0, false, 1⟩

/-- A background-audio configuration with volume 1 and extra audio output. -/
def cfgVol1 : Settings :=
  ⟨.pyBool false, 0, false, 1, true, 1⟩

/-- C1 (counterexample): in story mode method 1 with zero body clips and all
probed durations 1, `get_audio_clips_durations` probes 2 clips (title and
postaudio-0, sum 2) but `overlay_images_on_background` emits only 1 window,
whose end is 1: the last window end misses the duration sum by 1, far beyond
the 1e-6 tolerance, refuting the claim for this layout mode. -/
theorem C1_counterexample :
    lastEndFrom 0 (overlay_images_on_background cfgStory1 [ImgRef.title]
      (get_audio_clips_durations cfgStory1 0 "demo" fun _ => 1) 0).windows = 1 ∧
    (get_audio_clips_durations cfgStory1 0 "demo" fun _ => 1).sum = 2 ∧
    ¬ withinTol (lastEndFrom 0 (overlay_images_on_background cfgStory1
      [ImgRef.title]
      (get_audio_clips_durations cfgStory1 0 "demo" fun _ => 1) 0).windows)
      ((get_audio_clips_durations cfgStory1 0 "demo" fun _ => 1).sum) := by
  have hds : get_audio_clips_durations cfgStory1 0 "demo" (fun _ => 1) =
      [(1 : ℚ), 1] := rfl
  have hlast : lastEndFrom 0 (overlay_images_on_background cfgStory1
      [ImgRef.title]
      (get_audio_clips_durations cfgStory1 0 "demo" fun _ => 1) 0).windows =
      0 + 1 := rfl
  have hsum : (get_audio_clips_durations cfgStory1 0 "demo" fun _ => 1).sum =
      2 := by
    rw [hds]
    norm_num
  refine ⟨by rw [hlast]; norm_num, hsum, ?_⟩
  rw [hlast, hsum, withinTol]
  norm_num

/-- C1 (amended): in every layout mode the windows produced by
`overlay_images_on_background` from the probed durations are contiguous and
ordered (the first window starts at 0 and each window ends where the next
starts, even with zero durations), and the last window end equals the sum of
the first `windows.length` probed durations; in the flat-comments mode and
in story mode method 0 that is the sum of ALL probed durations, but in story
mode method 1 the final probed duration is never consumed, so the total
falls short of the full sum by that amount. -/
theorem C1_amended (cfg : Settings) (n : ℕ) (rid : String) (probe : String → ℚ)
    (ds : List ℚ) (hds : ds = get_audio_clips_durations cfg n rid probe)
    (res : OverlayResult)
    (hres : res = overlay_images_on_background cfg [ImgRef.title] ds n) :
    contiguousFromB 0 res.windows = true ∧
    lastEndFrom 0 res.windows = (ds.take res.windows.length).sum ∧
    ((cfg.storymode.truthy = false ∨ cfg.storymodemethod = 0) →
      lastEndFrom 0 res.windows = ds.sum) := by
  by_cases hS : cfg.storymode.truthy
  · by_cases h0 : cfg.storymodemethod = 0
    · have hw : res.windows =
          overlayGo (pyListInsert [ImgRef.title] 1 ImgRef.storyContent) none
            ds 0 2 0 := by
        rw [hres, overlay_images_on_background]
        simp [hS, h0]
      have hlen2 : ds.length = 2 := by
        rw [hds, get_audio_clips_durations]
        simp [hS, h0]
      refine ⟨?_, ?_, ?_⟩
      · rw [hw]
        exact overlayGo_contiguous _ _ _ 2 0 0
      · rw [hw, overlayGo_lastEnd, overlayGo_length, sumFrom_zero_eq, zero_add]
      · intro _
        rw [hw, overlayGo_lastEnd, sumFrom_zero_eq, zero_add, ← hlen2,
          List.take_length]
    · by_cases h1 : cfg.storymodemethod = 1
      · have hw : res.windows =
            overlayGo ([ImgRef.title] ++ (List.range (n + 1)).map
              (fun i => if cfg.storymodemethod_cap_cut then ImgRef.trs i
                        else ImgRef.img i)) none ds 0 (n + 1) 0 := by
          rw [hres, overlay_images_on_background]
          simp [hS, h0, h1]
        refine ⟨?_, ?_, ?_⟩
        · rw [hw]
          exact overlayGo_contiguous _ _ _ (n + 1) 0 0
        · rw [hw, overlayGo_lastEnd, overlayGo_length, sumFrom_zero_eq,
            zero_add]
        · intro h
          rcases h with h | h
          · rw [hS] at h
            exact absurd h (by simp)
          · exact absurd h h0
      · have hw : res.windows = [] := by
          rw [hres, overlay_images_on_background]
          simp [hS, h0, h1]
        refine ⟨by rw [hw]; rfl, by rw [hw]; simp [lastEndFrom], ?_⟩
        intro h
        rcases h with h | h
        · rw [hS] at h
          exact absurd h (by simp)
        · exact absurd h h0
  · have hS2 : cfg.storymode.truthy = false := by
      revert hS
      cases cfg.storymode.truthy <;> simp
    have hw : res.windows =
        overlayGo ([ImgRef.title] ++ (List.range (n + 1)).map ImgRef.comment)
          (some cfg.opacity) ds 0 (n + 1) 0 := by
      rw [hres, overlay_images_on_background]
      simp [hS2]
    have hlen : ds.length = n + 1 := by
      rw [hds, get_audio_clips_durations]
      simp [hS2]
    refine ⟨?_, ?_, ?_⟩
    · rw [hw]
      exact overlayGo_contiguous _ _ _ (n + 1) 0 0
    · rw [hw, overlayGo_lastEnd, overlayGo_length, sumFrom_zero_eq, zero_add]
    · intro _
      rw [hw, overlayGo_lastEnd, sumFrom_zero_eq, zero_add, ← hlen,
        List.take_length]

/-- C1 witness: the amended theorem applied to a flat-comments job with one
comment clip and all durations 1. -/
theorem C1_amended_witness :
    contiguousFromB 0 (overlay_images_on_background cfgFlat0 [ImgRef.title]
      (get_audio_clips_durations cfgFlat0 1 "demo" fun _ => 1) 1).windows =
      true ∧
    lastEndFrom 0 (overlay_images_on_background cfgFlat0 [ImgRef.title]
      (get_audio_clips_durations cfgFlat0 1 "demo" fun _ => 1) 1).windows =
      ((get_audio_clips_durations cfgFlat0 1 "demo" fun _ => 1).take
        (overlay_images_on_background cfgFlat0 [ImgRef.title]
          (get_audio_clips_durations cfgFlat0 1 "demo" fun _ => 1)
          1).windows.length).sum ∧
    lastEndFrom 0 (overlay_images_on_background cfgFlat0 [ImgRef.title]
      (get_audio_clips_durations cfgFlat0 1 "demo" fun _ => 1) 1).windows =
      (get_audio_clips_durations cfgFlat0 1 "demo" fun _ => 1).sum := by
  have h := C1_amended cfgFlat0 1 "demo" (fun _ => 1) _ rfl _ rfl
  exact ⟨h.1, h.2.1, h.2.2 (Or.inl rfl)⟩

/-- C2 (counterexample): in story mode method 1 with `number_of_clips = 0`,
`gather_audio_clips` enumerates 2 audio segments (title and postaudio-0) but
`overlay_images_on_background` produces only 1 window, refuting the claim
that the window count equals the segment count in every mode. -/
theorem C2_counterexample :
    gather_audio_clips cfgStory1 0 "demo" =
      .ok [mp3Path "demo" "title.mp3", mp3Path "demo" "postaudio-0.mp3"] ∧
    (overlay_images_on_background cfgStory1 [ImgRef.title]
      (get_audio_clips_durations cfgStory1 0 "demo" fun _ => 1)
      0).windows.length = 1 := by
  exact ⟨rfl, rfl⟩

/-- C2 (amended): for every non-empty gathered segment list, the number of
produced windows equals the number of enumerated audio segments (title
included) in the flat-comments mode, and in story mode method 0 exactly two
windows are produced, title first then the full story body; but in story
mode method 1 the window count is one LESS than the segment count (the last
postaudio segment gets no window). -/
theorem C2_amended (cfg : Settings) (n : ℕ) (rid : String) (probe : String → ℚ)
    (l : List String) (hl : gather_audio_clips cfg n rid = .ok l) (_hne : l ≠ [])
    (ds : List ℚ) (_hds : ds = get_audio_clips_durations cfg n rid probe)
    (res : OverlayResult)
    (hres : res = overlay_images_on_background cfg [ImgRef.title] ds n) :
    (cfg.storymode.truthy = false → res.windows.length = l.length) ∧
    (cfg.storymode.truthy = true → cfg.storymodemethod = 0 →
      res.windows.length = 2 ∧ l.length = 2 ∧
      res.windows.map OverlayWindow.image = [ImgRef.title, ImgRef.storyContent]) ∧
    (cfg.storymode.truthy = true → cfg.storymodemethod = 1 →
      res.windows.length + 1 = l.length) := by
  refine ⟨?_, ?_, ?_⟩
  · intro hS
    have hg : cfg.storymode.eqPy (.pyStr "false") = false :=
      eqPy_str_false_of_falsy _ hS
    rw [gather_audio_clips, if_neg (by simp [hg]), if_neg (by simp [hS])] at hl
    simp only [Except.ok.injEq] at hl
    have hll : l.length = n + 1 := by
      rw [← hl]
      simp
    have hwl : res.windows.length = n + 1 := by
      rw [hres, overlay_images_on_background]
      simp [hS, overlayGo_length]
    rw [hwl, hll]
  · intro hS h0
    by_cases hguard : (n == 0 && cfg.storymode.eqPy (.pyStr "false")) = true
    · rw [gather_audio_clips, if_pos hguard] at hl
      exact absurd hl (by simp)
    · rw [gather_audio_clips, if_neg hguard, if_pos hS, if_pos h0] at hl
      simp only [Except.ok.injEq] at hl
      have hll : l.length = 2 := by
        rw [← hl]
        rfl
      have hw : res.windows =
          overlayGo (pyListInsert [ImgRef.title] 1 ImgRef.storyContent) none
            ds 0 2 0 := by
        rw [hres, overlay_images_on_background]
        simp [hS, h0]
      refine ⟨by rw [hw, overlayGo_length], hll, ?_⟩
      rw [hw]
      simp [overlayGo, pyListInsert]
  · intro hS h1
    by_cases hguard : (n == 0 && cfg.storymode.eqPy (.pyStr "false")) = true
    · rw [gather_audio_clips, if_pos hguard] at hl
      exact absurd hl (by simp)
    · have h0 : ¬ cfg.storymodemethod = 0 := by
        rw [h1]
        norm_num
      rw [gather_audio_clips, if_neg hguard, if_pos hS, if_neg h0,
        if_pos h1] at hl
      simp only [Except.ok.injEq] at hl
      have hll : l.length = n + 2 := by
        rw [← hl]
        simp
      have hwl : res.windows.length = n + 1 := by
        rw [hres, overlay_images_on_background]
        simp [hS, h0, h1, overlayGo_length]
      rw [hwl, hll]

/-- C2 witness: the amended theorem applied to a story method 0 job: exactly
two windows, title then story body, matching the two gathered segments. -/
theorem C2_amended_witness :
    (overlay_images_on_background ⟨.pyBool true, 0, false, 0, false, 1⟩
      [ImgRef.title] (get_audio_clips_durations
        ⟨.pyBool true, 0, false, 0, false, 1⟩ 2 "demo" fun _ => 1)
      2).windows.length = 2 ∧
    (overlay_images_on_background ⟨.pyBool true, 0, false, 0, false, 1⟩
      [ImgRef.title] (get_audio_clips_durations
        ⟨.pyBool true, 0, false, 0, false, 1⟩ 2 "demo" fun _ => 1)
      2).windows.map OverlayWindow.image =
      [ImgRef.title, ImgRef.storyContent] := by
  have h := (C2_amended ⟨.pyBool true, 0, false, 0, false, 1⟩ 2 "demo"
    (fun _ => 1) [mp3Path "demo" "title.mp3", mp3Path "demo" "postaudio.mp3"]
    rfl (by simp) _ rfl _ rfl).2.1 rfl rfl
  exact ⟨h.1, h.2.2⟩

/-- C10: in the flat-comments mode with `number_of_clips = N >= 1`, window 0
composites the title image and window `i` (for `1 <= i <= N`) composites
comment image `i - 1`, so each overlay is paired with the audio clip of the
same narrated unit; the comment image with index `N` is declared as a graph
input but is composited onto no window. -/
theorem C10_flat_window_images (cfg : Settings)
    (hS : cfg.storymode.truthy = false) (ds : List ℚ) (n : ℕ) (hn : 1 ≤ n)
    (res : OverlayResult)
    (hres : res = overlay_images_on_background cfg [ImgRef.title] ds n) :
    res.windows.length = n + 1 ∧
    (res.windows.getD 0 default).image = ImgRef.title ∧
    (∀ i, 1 ≤ i → i ≤ n →
      (res.windows.getD i default).image = ImgRef.comment (i - 1)) ∧
    ImgRef.comment n ∈ res.image_clips ∧
    (∀ w ∈ res.windows, w.image ≠ ImgRef.comment n) := by
  have hclips : res.image_clips =
      [ImgRef.title] ++ (List.range (n + 1)).map ImgRef.comment := by
    rw [hres, overlay_images_on_background]
    simp [hS]
  have hw : res.windows =
      overlayGo ([ImgRef.title] ++ (List.range (n + 1)).map ImgRef.comment)
        (some cfg.opacity) ds 0 (n + 1) 0 := by
    rw [hres, overlay_images_on_background]
    simp [hS]
  have hgetDsucc : ∀ j, j < n + 1 →
      ([ImgRef.title] ++ (List.range (n + 1)).map ImgRef.comment).getD (j + 1)
        default = ImgRef.comment j := by
    intro j hj
    rw [show [ImgRef.title] ++ (List.range (n + 1)).map ImgRef.comment =
        ImgRef.title :: (List.range (n + 1)).map ImgRef.comment from rfl,
      List.getD_cons_succ, List.getD_eq_getElem?_getD, List.getElem?_map,
      List.getElem?_range hj]
    rfl
  refine ⟨?_, ?_, ?_, ?_, ?_⟩
  · rw [hw, overlayGo_length]
  · rw [hw, overlayGo_image_getD _ _ _ (n + 1) 0 0 0 (by omega)]
    rfl
  · intro i h1 h2
    obtain ⟨j, rfl⟩ : ∃ j, i = j + 1 := ⟨i - 1, by omega⟩
    rw [hw, overlayGo_image_getD _ _ _ (n + 1) (j + 1) 0 0 (by omega)]
    rw [show 0 + (j + 1) = j + 1 from by omega, hgetDsucc j (by omega)]
    simp
  · rw [hclips]
    simp only [List.mem_append, List.mem_map, List.mem_range]
    exact Or.inr ⟨n, by omega, rfl⟩
  · intro w hwmem
    rw [hw] at hwmem
    obtain ⟨j, hj, him⟩ := overlayGo_image_mem _ _ _ (n + 1) 0 0 w hwmem
    rw [him, show 0 + j = j from by omega]
    cases j with
    | zero => simp
    | succ j2 =>
      rw [hgetDsucc j2 (by omega)]
      intro hEq
      injection hEq with hEq2
      omega

/-- C10 witness: with one comment clip, two windows are produced, window 1
composites comment image 0 and comment image 1 is declared but unused. -/
theorem C10_flat_window_images_witness :
    (overlay_images_on_background cfgFlat0 [ImgRef.title] [2, 3] 1).windows.length = 2 ∧
    ((overlay_images_on_background cfgFlat0 [ImgRef.title] [2, 3]
      1).windows.getD 1 default).image = ImgRef.comment 0 ∧
    ImgRef.comment 1 ∈
      (overlay_images_on_background cfgFlat0 [ImgRef.title] [2, 3]
        1).image_clips := by
  have h := C10_flat_window_images cfgFlat0 rfl [2, 3] 1 (le_refl 1) _ rfl
  exact ⟨h.1, by simpa using h.2.2.1 1 (le_refl 1) (le_refl 1), h.2.2.2.1⟩

/-- C4: with background audio volume 0, `merge_background_audio` returns the
narration audio unchanged (no amix node, no background input) and
`make_final_video` performs a single render (the Only TTS render is gated on
a non-zero volume); with non-zero volume, the background track is volume
scaled and mixed under the duration "longest" policy. -/
theorem C4_background_audio (cfg : Settings) (audio : AudioNode)
    (rid : String) :
    (cfg.background_audio_volume = 0 →
      merge_background_audio cfg audio rid = audio ∧
      render_invocations cfg = 1) ∧
    (cfg.background_audio_volume ≠ 0 →
      merge_background_audio cfg audio rid =
        .amix audio
          (.volume (.input s!"assets/temp/{rid}/background.mp3")
            cfg.background_audio_volume)
          "longest") := by
  constructor
  · intro h
    refine ⟨by rw [merge_background_audio, if_pos h], ?_⟩
    rw [render_invocations, if_neg (by simp [allow_only_tts_folder, h])]
  · intro h
    rw [merge_background_audio, if_neg h]

/-- C4 witness: the theorem applied at volume 0 (audio unchanged, one
render) and at volume 1 (explicit amix graph). -/
theorem C4_background_audio_witness :
    merge_background_audio cfgFlat0 (.input "audio.mp3") "demo" =
      .input "audio.mp3" ∧
    render_invocations cfgFlat0 = 1 ∧
    merge_background_audio cfgVol1 (.input "audio.mp3") "demo" =
      .amix (.input "audio.mp3")
        (.volume (.input "assets/temp/demo/background.mp3") 1) "longest" := by
  have h0 := (C4_background_audio cfgFlat0 (.input "audio.mp3") "demo").1 rfl
  have h1 := (C4_background_audio cfgVol1 (.input "audio.mp3") "demo").2
    (by norm_num [cfgVol1])
  exact ⟨h0.1, h0.2, by rw [h1]; rfl⟩

/-- C5: when the external encoder exits non-zero, `render_video` raises
`ffmpeg.Error`, prints the captured stderr and aborts with `exit(1)`: the
failure carries the diagnostic stream, the encoder is not re-invoked for
that variant, the render does not complete and `make_final_video` reports
no output path. -/
theorem C5_encode_error (stderr : String) (video_path : String) :
    render_video (.error stderr) =
      { encoderCalls := 1, completed := false,
        printedDiagnostics := some stderr, exitedProcess := true } ∧
    reported_video_path (.error stderr) video_path = none :=
  ⟨rfl, rfl⟩

/-- C6: the `exit()` guard of `gather_audio_clips` compares the boolean
`storymode` setting against the STRING "false", which is never Python-equal
to a boolean: with `number_of_clips = 0` in the flat-comments mode the guard
does not fire, gathering returns a title-only clip list instead of failing,
and one overlay window is produced instead of none. -/
theorem C6_dead_empty_guard :
    PyVal.eqPy (.pyBool false) (.pyStr "false") = false ∧
    gather_audio_clips cfgFlat0 0 "demo" = .ok [mp3Path "demo" "title.mp3"] ∧
    (overlay_images_on_background cfgFlat0 [ImgRef.title]
      (get_audio_clips_durations cfgFlat0 0 "demo" fun _ => 1)
      0).windows.length = 1 :=
  ⟨rfl, rfl, rfl⟩

end FinalVideo
